import Mathlib

/-!
Verification development for the evaluation/complexity-estimation harness
(`src/utils.py`, `src/cha1_utils.py`).

The embedding keeps the source's structure:

* `fit_complexity` embeds `_fit_complexity` (src/utils.py, lines 77-170).
  All float arithmetic is carried out exactly over `ℚ`.  `np.std y < tol`
  is embedded as `varP y < tol^2` (both sides of the original comparison
  are nonnegative, squaring is strictly monotone there, and
  `np.std y ^ 2 = varP y`), which keeps square roots out of the model.
  The binary logarithm `np.log2` is irrational on most integer inputs, so
  it is a parameter `lg : ℤ → ℚ` of the estimator; every theorem below
  holds for an arbitrary `lg`, and concrete witnesses instantiate it with
  the exact value of `log2` on power-of-two inputs.
* `internalEvalTrace` embeds `internal_evaluation` (lines 315-429) and
  `evalOnSamplesTrace` embeds `evaluate_on_samples` (lines 15-74).
  The ambient process clock/memory counter is modelled as a tape
  `ℕ → ℚ × ℚ` of successive `(perf_counter, rss)` readings, consumed in
  order; the `proc` handle the driver passes to the checker is the
  current tape position.  Console output, solution invocations, oracle
  calls and the per-size sample buckets are recorded in an explicit
  trace; the Python function's return value is the `result` field.
* `Cha1.check_solution` embeds `check_solution` (src/cha1_utils.py).
-/

namespace Harness

/-! ### Statistics helpers (exact versions of the numpy expressions) -/

/-- Sum of a list of rationals (`np.sum`). -/
def sumQ (l : List ℚ) : ℚ := l.foldr (· + ·) 0

/-- `np.mean`.  (Lean's `q / 0 = 0` convention only matters for the empty
list, which numpy maps to `nan`; all theorems below that depend on the
mean hypothesise a nonempty list.) -/
def mean (l : List ℚ) : ℚ := sumQ l / l.length

/-- Total sum of squares `Σ (y - mean y)^2` (`ss_tot` in the source). -/
def ssTot (l : List ℚ) : ℚ := sumQ (l.map (fun y => (y - mean l) ^ 2))

/-- Population variance, i.e. `np.std l ^ 2`. -/
def varP (l : List ℚ) : ℚ := ssTot l / l.length

/-- `Σ (x - mean x) * (y - mean y)`, the numerator of the least-squares
slope for the design matrix `[x, 1]` used by `np.linalg.lstsq`. -/
def covSum (xs ys : List ℚ) : ℚ :=
  sumQ ((xs.zip ys).map (fun p => (p.1 - mean xs) * (p.2 - mean ys)))

/-- Residual sum of squares `Σ (y - (a*x + b))^2` (`ss_res`). -/
def ssRes (xs ys : List ℚ) (a b : ℚ) : ℚ :=
  sumQ ((xs.zip ys).map (fun p => (p.2 - (a * p.1 + b)) ^ 2))

/-! ### The candidate-model menu -/

/-- The fixed menu of growth models of `_fit_complexity`, in source order. -/
inductive CName where
  | o1 | ologn | olinear | onlogn | oquad | ocube | oexp
deriving DecidableEq, Repr, Inhabited

/-- Position of a model in the candidate menu (`complexities` list order). -/
def menuRank : CName → ℕ
  | .o1 => 0
  | .ologn => 1
  | .olinear => 2
  | .onlogn => 3
  | .oquad => 4
  | .ocube => 5
  | .oexp => 6

/-- The transform each model applies to a size value (the lambdas of the
`complexities` list).  `lg` stands for `np.log2`; the `max · 1` mirrors
`np.maximum(n, 1)` inside the log-based lambdas, and the exponent cap 30
mirrors `np.minimum(n, 30)`. -/
def transform (lg : ℤ → ℚ) : CName → ℤ → ℚ
  | .o1, _ => 1
  | .ologn, n => lg (max n 1)
  | .olinear, n => (n : ℚ)
  | .onlogn, n => (n : ℚ) * lg (max n 1)
  | .oquad, n => (n : ℚ) ^ 2
  | .ocube, n => (n : ℚ) ^ 3
  | .oexp, n => (2 : ℚ) ^ (min n 30).toNat

/-- One entry of the `results` list: `(name, func, (a, b), r2)`.  The
`func` component is omitted: it is determined by `name` (it is the menu
lambda, and the fallback lambdas of lines 90/155/168 are the `O(1)`
transform). -/
structure FitEntry where
  name : CName
  a : ℚ
  b : ℚ
  r2 : ℚ
deriving DecidableEq, Repr, Inhabited

/-- The `O(1)` entry appended unconditionally by the loop (lines 116-124):
fitted value is the mean, and `r2 = 0` unless `ss_tot > 1e-10` fails. -/
def o1Entry (ys : List ℚ) : FitEntry :=
  { name := .o1, a := mean ys, b := 0, r2 := if ssTot ys > 1 / 10 ^ 10 then 0 else 1 }

/-- One loop iteration for a non-constant model (lines 111-152): transform
the safe sizes, skip if the transformed values are (numerically) constant,
fit `y = a*x + b` by least squares, discard `a ≤ 0`, and score by R².
The least-squares solution for the full-rank two-column design matrix is
`a = covSum/ssTot xs`, `b = mean ys - a * mean xs`, which is what
`np.linalg.lstsq` returns there. -/
def modelEntry (lg : ℤ → ℚ) (ns : List ℤ) (ys : List ℚ) (m : CName) : Option FitEntry :=
  let xs := ns.map (fun n => transform lg m (max n 1))
  if varP xs < 1 / 10 ^ 20 then none
  else
    let a := covSum xs ys / ssTot xs
    let b := mean ys - a * mean xs
    if a ≤ 0 then none
    else
      let sst := ssTot ys
      let r2 :=
        if sst < 1 / 10 ^ 10 then (if ssRes xs ys a b < 1 / 10 ^ 10 then 1 else 0)
        else 1 - ssRes xs ys a b / sst
      some { name := m, a := a, b := b, r2 := r2 }

/-- The non-constant part of the menu, in source order. -/
def menuTail : List CName := [.ologn, .olinear, .onlogn, .oquad, .ocube, .oexp]

/-- The `results` list accumulated by the loop, in menu order. -/
def resultsOf (lg : ℤ → ℚ) (ns : List ℤ) (ys : List ℚ) : List FitEntry :=
  o1Entry ys :: menuTail.filterMap (modelEntry lg ns ys)

/-- Stable insertion into a list sorted by `r2` descending: the inserted
element comes from earlier in the input, so it goes in front of the first
element whose key does not exceed its own. -/
def insertDesc (x : FitEntry) : List FitEntry → List FitEntry
  | [] => [x]
  | y :: ys => if y.r2 ≤ x.r2 then x :: y :: ys else y :: insertDesc x ys

/-- Stable sort by `r2` descending, embedding
`results.sort(key=lambda x: x[3], reverse=True)` (Python's list sort is
stable; ties keep input order). -/
def sortDesc : List FitEntry → List FitEntry
  | [] => []
  | x :: xs => insertDesc x (sortDesc xs)

/-- `cv < 0.3` where `cv = np.std(y) / (np.mean(y) + 1e-10)` (line 96),
embedded without square roots: for a positive denominator the comparison
squares to `varP y < 0.09 * m^2`; for a negative denominator `cv` is
nonpositive, hence below 0.3; for a zero denominator numpy produces
`inf`/`nan`, which compare false. -/
def cvLt (ys : List ℚ) : Bool :=
  let m := mean ys + 1 / 10 ^ 10
  if 0 < m then decide (varP ys < 9 / 100 * m ^ 2)
  else decide (m < 0)

/-- The fourth component of the value `_fit_complexity` returns: the
(sorted) `results` list on most paths, but the scalar `r[3]` — the
selected entry's R² — on the `return r` path of line 167. -/
inductive FitExtra where
  | results : List FitEntry → FitExtra
  | rsq : ℚ → FitExtra
deriving DecidableEq, Repr

/-- The sorted `results` list (state of `results` after line 158). -/
def sortedFit (lg : ℤ → ℚ) (ns : List ℤ) (ys : List ℚ) : List FitEntry :=
  sortDesc (resultsOf lg ns ys)

/-- Embedding of `_fit_complexity` (src/utils.py lines 77-170), returning
`(best_name, (a, b), fourth component)`. -/
def fit_complexity (lg : ℤ → ℚ) (ns : List ℤ) (ys : List ℚ) :
    CName × (ℚ × ℚ) × FitExtra :=
  if varP ys < 1 / 10 ^ 20 then (.o1, (mean ys, 0), .results [])
  else
    match sortedFit lg ns ys with
    | [] => (.o1, (mean ys, 0), .results [])
    | best :: rest =>
      if decide (best.r2 < 1 / 2) && cvLt ys then
        match (best :: rest).find? (fun e => e.name == CName.o1) with
        | some r => (.o1, (r.a, r.b), .rsq r.r2)
        | none => (.o1, (mean ys, 0), .results (best :: rest))
      else (best.name, (best.a, best.b), .results (best :: rest))

/-! ### The evaluation driver

`internal_evaluation` (src/utils.py lines 315-429) and
`evaluate_on_samples` (lines 15-74).  The process clock and resident-set
counter are modelled as a tape of `(perf_counter, rss)` pairs indexed by
the number of probe readings taken so far; `get_trss`-style bracketing
reads one pair per probe.  The `proc` object handed to the checker is the
current tape position: the checker may take further readings of its own
(`consumed` reports how many).  A checker's raw Python return is a tuple
of length ≥ 3; elements `[:3]` are the verdict booleans, element `[3]`
(when present) the custom message, and anything beyond is never looked
at — the `extra` field carries those ignored elements. -/

/-- The value a checker call produces, as the driver sees it. -/
structure CheckRet where
  accurate : Bool
  time_ok : Bool
  memory_ok : Bool
  message : Option String
  extra : List Bool
  consumed : ℕ
deriving DecidableEq, Repr, Inhabited

/-- The verdict fields the driver actually reads, plus the probe
advancement the checker causes. -/
def CheckRet.used (c : CheckRet) : Bool × Bool × Bool × Option String × ℕ :=
  (c.accurate, c.time_ok, c.memory_ok, c.message, c.consumed)

/-- `c.accurate and c.time_ok and c.memory_ok`. -/
def CheckRet.allOk (c : CheckRet) : Bool := c.accurate && c.time_ok && c.memory_ok

/-- The console messages the driver can print. -/
inductive Msg where
  | runtimeError (i : ℕ) (e : String)
  | custom (m : String)
  | wrongAnswer (i : ℕ)
  | timeExceeded (i : ℕ)
  | memExceeded (i : ℕ)
  | allPassed (n : ℕ)
  | allSamplesPassed (n : ℕ)
  | noTests
  | fileNotFound
deriving DecidableEq, Repr

/-- The failure message printed for the first false verdict field, in the
source's priority order: accuracy (custom message if supplied, else the
generic wrong-answer line), then time, then memory. -/
def failMsg (i : ℕ) (c : CheckRet) : Msg :=
  if !c.accurate then
    match c.message with
    | some m => .custom m
    | none => .wrongAnswer i
  else if !c.time_ok then .timeExceeded i
  else .memExceeded i

/-- A checker as `internal_evaluation` calls it:
`check_solution(test_input, user_result, proc, time_limit, memory_limit)`,
where `proc` is the probe position. -/
def Check (α β : Type) : Type := α → β → ℕ → ℚ → ℚ → CheckRet

/-- Everything observable about one driver run: the returned boolean, the
printed messages, the (1-based) numbers of the tests on which the
solution was invoked, the argument tuples passed to the checker, and the
recorded `(n, value)` samples of `time_by_n` / `memory_by_n` in insertion
order. -/
structure DriverTrace (α β : Type) where
  result : Bool
  msgs : List Msg
  invoked : List ℕ
  oracleArgs : List (α × β × ℕ × ℚ × ℚ)
  timeB : List (ℕ × ℚ)
  memB : List (ℕ × ℚ)
deriving Repr

/-- The evaluation loop of `internal_evaluation` (lines 372-414) over the
remaining tests, starting at test number `i` with probe position `p`.
The `if/elif/elif` failure chain is expressed as
`if allOk then continue else stop with failMsg`, which is the same
case split. -/
def runTests (tape : ℕ → ℚ × ℚ) (solve : α → Except String β) (check : Check α β)
    (tmax rmax : ℚ) (sizeOf : Option (α → ℕ)) :
    List α → ℕ → ℕ → DriverTrace α β
  | [], _, _ => ⟨true, [], [], [], [], []⟩
  | t :: ts, i, p =>
    let t0r0 := tape p
    match solve t with
    | .error e => ⟨false, [.runtimeError i e], [i], [], [], []⟩
    | .ok res =>
      let t1r1 := tape (p + 1)
      let tb := match sizeOf with
        | some f => [(f t, t1r1.1 - t0r0.1)]
        | none => []
      let mb := match sizeOf with
        | some f => [(f t, max 0 (t1r1.2 - t0r0.2))]
        | none => []
      let c := check t res (p + 2) tmax rmax
      if c.allOk then
        let rec1 := runTests tape solve check tmax rmax sizeOf ts (i + 1) (p + 2 + c.consumed)
        ⟨rec1.result, rec1.msgs, i :: rec1.invoked,
          (t, res, p + 2, tmax, rmax) :: rec1.oracleArgs,
          tb ++ rec1.timeB, mb ++ rec1.memB⟩
      else
        ⟨false, [failMsg i c], [i], [(t, res, p + 2, tmax, rmax)], tb, mb⟩

/-- Embedding of `internal_evaluation` (lines 315-429).  `fe` is whether
the test file exists; `tests` is what `parse_tests` yields.  Plotting and
estimation are handed to the external reporter and do not affect the
trace. -/
def internalEvalTrace (tape : ℕ → ℚ × ℚ) (fe : Bool) (tests : List α)
    (solve : α → Except String β) (check : Check α β) (tmax rmax : ℚ)
    (sizeOf : Option (α → ℕ)) : DriverTrace α β :=
  if !fe then ⟨false, [.fileNotFound], [], [], [], []⟩
  else if tests.isEmpty then ⟨false, [.noTests], [], [], [], []⟩
  else
    let tr := runTests tape solve check tmax rmax sizeOf tests 1 0
    if tr.result then { tr with msgs := tr.msgs ++ [.allPassed tests.length] }
    else tr

/-- The value the Python function returns: `all_passed` only. -/
def internal_evaluation (tape : ℕ → ℚ × ℚ) (fe : Bool) (tests : List α)
    (solve : α → Except String β) (check : Check α β) (tmax rmax : ℚ)
    (sizeOf : Option (α → ℕ)) : Bool :=
  (internalEvalTrace tape fe tests solve check tmax rmax sizeOf).result

/-- The loop of `evaluate_on_samples` (lines 40-69): same policy as
`runTests`, but no measurement bracketing and no sample recording. -/
def runSamples (tape : ℕ → ℚ × ℚ) (solve : α → Except String β) (check : Check α β)
    (tmax rmax : ℚ) : List α → ℕ → ℕ → DriverTrace α β
  | [], _, _ => ⟨true, [], [], [], [], []⟩
  | t :: ts, i, p =>
    match solve t with
    | .error e => ⟨false, [.runtimeError i e], [i], [], [], []⟩
    | .ok res =>
      let c := check t res p tmax rmax
      if c.allOk then
        let rec1 := runSamples tape solve check tmax rmax ts (i + 1) (p + c.consumed)
        ⟨rec1.result, rec1.msgs, i :: rec1.invoked,
          (t, res, p, tmax, rmax) :: rec1.oracleArgs, [], []⟩
      else
        ⟨false, [failMsg i c], [i], [(t, res, p, tmax, rmax)], [], []⟩

/-- Embedding of `evaluate_on_samples` (lines 15-74): on success (which
includes the empty sample list) the all-passed summary is printed. -/
def evalOnSamplesTrace (tape : ℕ → ℚ × ℚ) (samples : List α)
    (solve : α → Except String β) (check : Check α β) (tmax rmax : ℚ) :
    DriverTrace α β :=
  let tr := runSamples tape solve check tmax rmax samples 1 0
  if tr.result then { tr with msgs := tr.msgs ++ [.allSamplesPassed samples.length] }
  else tr

/-- The value the Python `evaluate_on_samples` returns: `all_passed`. -/
def evaluate_on_samples (tape : ℕ → ℚ × ℚ) (samples : List α)
    (solve : α → Except String β) (check : Check α β) (tmax rmax : ℚ) : Bool :=
  (evalOnSamplesTrace tape samples solve check tmax rmax).result

/-- The per-test outcomes of a run without early exit: what the solution
and the checker produce at each test, with the same probe threading as
the driver (one reading consumed before a raising invocation, two plus
the checker's own readings otherwise).  The driver coincides with this
list up to its first failure, which is what lets claims quantify over
"the index at which the verdict first has a false field". -/
inductive StepOut where
  | err (e : String)
  | ver (c : CheckRet)
deriving DecidableEq, Repr

/-- Whether a step passes: a successful invocation with an all-true verdict. -/
def StepOut.pass : StepOut → Bool
  | .err _ => false
  | .ver c => c.allOk

/-- Reference outcome list (no early exit), given starting probe position. -/
def stepOutcomes (tape : ℕ → ℚ × ℚ) (solve : α → Except String β)
    (check : Check α β) (tmax rmax : ℚ) : List α → ℕ → List StepOut
  | [], _ => []
  | t :: ts, p =>
    match solve t with
    | .error e => .err e :: stepOutcomes tape solve check tmax rmax ts (p + 1)
    | .ok res =>
      let c := check t res (p + 2) tmax rmax
      .ver c :: stepOutcomes tape solve check tmax rmax ts (p + 2 + c.consumed)

/-! ### The challenge-1 oracle (src/cha1_utils.py) -/

namespace Cha1

/-- `s == s[::-1]`. -/
def isPalindrome (l : List ℕ) : Bool := l == l.reverse

/-- The `seen_one` loop (lines 46-53): the subsequence must be all 0s
followed by all 1s (values are 0/1, so `elif seen_one` fires exactly on a
non-1 value after a 1). -/
def nonDecr01 : List ℕ → Bool → Bool
  | [], _ => true
  | v :: rest, seen =>
    if v = 1 then nonDecr01 rest true
    else if seen then false
    else nonDecr01 rest seen

/-- `all(p[i] < p[i+1])`. -/
def strictIncr : List ℕ → Bool
  | [] => true
  | [_] => true
  | a :: b :: rest => decide (a < b) && strictIncr (b :: rest)

/-- The accuracy verdict of `check_solution` (lines 29-63).  List indexing
`s[idx-1]` is embedded with `getD` (the source only indexes after the
`1 <= p[i] <= n` bound check, and is called with `len s = n`). -/
def accurate (n : ℕ) (s : List ℕ) (k : ℕ) (p : List ℕ) : Bool :=
  if k = 0 || p.isEmpty then isPalindrome s
  else if k ≠ p.length then false
  else if !(p.all fun i => decide (1 ≤ i) && decide (i ≤ n)) then false
  else if !strictIncr p then false
  else
    let subsequence := p.map (fun idx => s.getD (idx - 1) 0)
    if !nonDecr01 subsequence false then false
    else
      let pset := p.map (· - 1)
      let remaining := ((List.range n).filter (fun i => !pset.contains i)).map
        (fun i => s.getD i 0)
      isPalindrome remaining

/-- Embedding of `check_solution` (src/cha1_utils.py lines 3-70) against a
probe tape: it takes its own `(t0, r0)` reading on entry and `(t1, r1)`
reading after the accuracy computation, and judges time/memory from its
own bracket.  It returns a plain 3-tuple: no custom message, no extras. -/
def check_solution (tape : ℕ → ℚ × ℚ) : Harness.Check (ℕ × List ℕ) (ℕ × List ℕ) :=
  fun ti res pos tmax rmax =>
    let t0r0 := tape pos
    let t1r1 := tape (pos + 1)
    { accurate := accurate ti.1 ti.2 res.1 res.2
      time_ok := decide (t1r1.1 - t0r0.1 ≤ tmax)
      memory_ok := decide (t1r1.2 - t0r0.2 ≤ rmax)
      message := none
      extra := []
      consumed := 2 }

end Cha1

/-! ### The driver as the spec's Oracle contract describes it

The specification states the Oracle contract as
`check(test_case, result, time_elapsed, memory_delta, time_limit,
memory_limit)`: the driver is said to supply the measured elapsed time
and memory delta of the invocation.  The following pair of definitions
renders that reading, for comparison with `internalEvalTrace` (claim C4).
-/

/-- A checker under the spec's contract: it receives the invocation's
measured elapsed time and (clamped) memory delta. -/
def SpecCheck (α β : Type) : Type := α → β → ℚ → ℚ → ℚ → ℚ → CheckRet

/-- The evaluation loop as the spec's §4.1/§6 words describe it: identical
to `runTests` except that the oracle receives `(t1 - t0, max 0 (r1 - r0))`
in place of the probe handle, and hence takes no probe readings of its
own. -/
def specRunTests (tape : ℕ → ℚ × ℚ) (solve : α → Except String β)
    (check : SpecCheck α β) (tmax rmax : ℚ) (sizeOf : Option (α → ℕ)) :
    List α → ℕ → ℕ → DriverTrace α β
  | [], _, _ => ⟨true, [], [], [], [], []⟩
  | t :: ts, i, p =>
    let t0r0 := tape p
    match solve t with
    | .error e => ⟨false, [.runtimeError i e], [i], [], [], []⟩
    | .ok res =>
      let t1r1 := tape (p + 1)
      let tb := match sizeOf with
        | some f => [(f t, t1r1.1 - t0r0.1)]
        | none => []
      let mb := match sizeOf with
        | some f => [(f t, max 0 (t1r1.2 - t0r0.2))]
        | none => []
      let c := check t res (t1r1.1 - t0r0.1) (max 0 (t1r1.2 - t0r0.2)) tmax rmax
      if c.allOk then
        let rec1 := specRunTests tape solve check tmax rmax sizeOf ts (i + 1) (p + 2)
        ⟨rec1.result, rec1.msgs, i :: rec1.invoked, rec1.oracleArgs,
          tb ++ rec1.timeB, mb ++ rec1.memB⟩
      else
        ⟨false, [failMsg i c], [i], [], tb, mb⟩

/-- `internal_evaluation` as the spec's Oracle contract would have it. -/
def specEvalResult (tape : ℕ → ℚ × ℚ) (fe : Bool) (tests : List α)
    (solve : α → Except String β) (check : SpecCheck α β) (tmax rmax : ℚ)
    (sizeOf : Option (α → ℕ)) : Bool :=
  if !fe then false
  else if tests.isEmpty then false
  else (specRunTests tape solve check tmax rmax sizeOf tests 1 0).result

/-- `check_solution`'s verdict logic under the spec's contract: the same
accuracy predicate, with the time/memory verdicts computed from the
supplied elapsed time and memory delta. -/
def cha1SpecCheck : SpecCheck (ℕ × List ℕ) (ℕ × List ℕ) :=
  fun ti res elapsed delta tmax rmax =>
    { accurate := Cha1.accurate ti.1 ti.2 res.1 res.2
      time_ok := decide (elapsed ≤ tmax)
      memory_ok := decide (delta ≤ rmax)
      message := none
      extra := []
      consumed := 0 }

/-- A deterministic probe tape read off a finite list of readings. -/
def tapeOf (l : List (ℚ × ℚ)) : ℕ → ℚ × ℚ := fun p => l.getD p (0, 0)

/-- An instantiation of the abstract binary logarithm used by the
witnesses below: it agrees exactly with `np.log2` on every size the
witnesses feed it (the powers of two 1, 2, 4 and 8). -/
def lgW : ℤ → ℚ := fun z =>
  if z ≤ 1 then 0 else if z = 2 then 1 else if z = 4 then 2 else if z = 8 then 3 else 0

/-- A degenerate instantiation of the abstract logarithm, for claims whose
inputs never reach a log-based transform. -/
def lg0 : ℤ → ℚ := fun _ => 0

/-! Concrete solvers, checkers and tapes used by the witnesses and
counterexamples below. -/

/-- A checker that reports a wrong answer exactly on test input 20 and is
otherwise satisfied; it takes no probe readings. -/
def checkW : Check ℕ ℕ := fun t _ _ _ _ => ⟨decide (t ≠ 20), true, true, none, [], 0⟩

/-- A checker that always passes and takes no probe readings. -/
def okCheckW : Check ℕ ℕ := fun _ _ _ _ _ => ⟨true, true, true, none, [], 0⟩

/-- A checker that always passes and returns a tuple longer than four
elements (the surplus is ignored by the driver). -/
def extraCheckW : Check ℕ ℕ := fun _ _ _ _ _ => ⟨true, true, true, none, [true], 0⟩

/-- A solution that raises exactly on test input 20. -/
def solveErrW : ℕ → Except String ℕ :=
  fun t => if t = 20 then .error "boom" else .ok t

/-- Probe tape for the C8 memory-clamp scenario: readings 0/1, 2/3 and
4/5 bracket three invocations at the same size, with raw memory deltas
-50, 0 and 200. -/
def tapeC8 : ℕ → ℚ × ℚ := fun p =>
  if p = 0 then (0, 100) else if p = 5 then (0, 250) else (0, 50)

/-- Probe tape recording a zero memory delta for every invocation. -/
def tapeZeroDelta : ℕ → ℚ × ℚ := fun _ => (0, 0)

/-- Probe tape recording a 200-byte memory delta for a single invocation
bracketed by readings 0 and 1. -/
def tapePosDelta : ℕ → ℚ × ℚ := fun p => if p = 0 then (0, 0) else (0, 200)

/-- Probe tape for the C4 scenario: the solution invocation spans times 0
to 10 (readings 0 and 1), while the oracle's own readings (2 and 3) both
happen at time 10. -/
def tapeSlow : ℕ → ℚ × ℚ := fun p => if p = 0 then (0, 0) else (10, 0)

/-- The candidate solution of the C4 scenario: it answers the
beautiful-string instance `(1, [0])` with the empty subsequence. -/
def solveCha1 : (ℕ × List ℕ) → Except String (ℕ × List ℕ) := fun _ => .ok (0, [])

/-! ### Estimator lemmas -/

theorem sumQ_const (l : List ℚ) (c : ℚ) (h : ∀ y ∈ l, y = c) :
    sumQ l = l.length * c := by
  induction l with
  | nil => simp [sumQ]
  | cons a t ih =>
    have ha : a = c := h a (List.mem_cons_self a t)
    have ht := ih (fun y hy => h y (List.mem_cons_of_mem a hy))
    simp only [sumQ, List.foldr_cons] at *
    rw [ht, ha, List.length_cons]
    push_cast
    ring

theorem mean_const (l : List ℚ) (c : ℚ) (hne : l ≠ []) (h : ∀ y ∈ l, y = c) :
    mean l = c := by
  have hlen : (l.length : ℚ) ≠ 0 := by
    simpa using hne
  rw [mean, sumQ_const l c h, mul_comm, mul_div_assoc, div_self hlen, mul_one]

theorem ssTot_const (l : List ℚ) (c : ℚ) (hne : l ≠ []) (h : ∀ y ∈ l, y = c) :
    ssTot l = 0 := by
  rw [ssTot, sumQ_const _ 0, List.length_map, mul_zero]
  intro z hz
  rcases List.mem_map.mp hz with ⟨y, hy, rfl⟩
  rw [h y hy, mean_const l c hne h, sub_self]
  norm_num

theorem varP_const (l : List ℚ) (c : ℚ) (hne : l ≠ []) (h : ∀ y ∈ l, y = c) :
    varP l = 0 := by
  rw [varP, ssTot_const l c hne h, zero_div]

theorem mem_insertDesc {x a : FitEntry} {l : List FitEntry} :
    a ∈ insertDesc x l ↔ a = x ∨ a ∈ l := by
  induction l with
  | nil => simp [insertDesc]
  | cons y ys ih =>
    unfold insertDesc
    split
    · simp [List.mem_cons]
    · simp only [List.mem_cons, ih]
      tauto

theorem mem_sortDesc {a : FitEntry} {l : List FitEntry} :
    a ∈ sortDesc l ↔ a ∈ l := by
  induction l with
  | nil => simp [sortDesc]
  | cons x xs ih =>
    simp [sortDesc, mem_insertDesc, ih]

theorem modelEntry_inv {lg : ℤ → ℚ} {ns : List ℤ} {ys : List ℚ} {m : CName}
    {e : FitEntry} (h : modelEntry lg ns ys m = some e) :
    e.name = m ∧ 0 < e.a := by
  simp only [modelEntry] at h
  split at h
  · exact absurd h (by simp)
  · split at h
    · exact absurd h (by simp)
    · next ha =>
      rcases Option.some.inj h with rfl
      exact ⟨rfl, lt_of_not_le ha⟩

theorem resultsOf_pos {lg : ℤ → ℚ} {ns : List ℤ} {ys : List ℚ} {e : FitEntry}
    (he : e ∈ resultsOf lg ns ys) (hn : e.name ≠ CName.o1) : 0 < e.a := by
  rcases List.mem_cons.mp he with rfl | hm
  · exact absurd rfl hn
  · rcases List.mem_filterMap.mp hm with ⟨m, _, hme⟩
    exact (modelEntry_inv hme).2

theorem pairwise_insertDesc (P : FitEntry → FitEntry → Prop) (x : FitEntry)
    (l : List FitEntry) (hx : ∀ y ∈ l, P x y)
    (hl : l.Pairwise (fun a b => b.r2 < a.r2 ∨ P a b)) :
    (insertDesc x l).Pairwise (fun a b => b.r2 < a.r2 ∨ P a b) := by
  induction l with
  | nil => simp [insertDesc]
  | cons y ys ih =>
    rw [List.pairwise_cons] at hl
    unfold insertDesc
    split
    · refine List.pairwise_cons.mpr ⟨?_, List.pairwise_cons.mpr ⟨hl.1, hl.2⟩⟩
      intro z hz
      exact Or.inr (hx z hz)
    · next hlt =>
      refine List.pairwise_cons.mpr
        ⟨?_, ih (fun z hz => hx z (List.mem_cons_of_mem _ hz)) hl.2⟩
      intro z hz
      rcases mem_insertDesc.mp hz with rfl | hz2
      · exact Or.inl (lt_of_not_le hlt)
      · exact hl.1 z hz2

theorem pairwise_sortDesc (P : FitEntry → FitEntry → Prop) (l : List FitEntry)
    (hl : l.Pairwise P) :
    (sortDesc l).Pairwise (fun a b => b.r2 < a.r2 ∨ P a b) := by
  induction l with
  | nil => simp [sortDesc]
  | cons x xs ih =>
    rw [List.pairwise_cons] at hl
    exact pairwise_insertDesc P x (sortDesc xs)
      (fun y hy => hl.1 y (mem_sortDesc.mp hy)) (ih hl.2)

theorem pairwise_filterMap_rank (lg : ℤ → ℚ) (ns : List ℤ) (ys : List ℚ)
    (ms : List CName) (hm : ms.Pairwise (fun a b => menuRank a < menuRank b)) :
    (ms.filterMap (modelEntry lg ns ys)).Pairwise
      (fun e1 e2 => menuRank e1.name < menuRank e2.name) := by
  induction ms with
  | nil => simp
  | cons m ms ih =>
    rw [List.pairwise_cons] at hm
    rw [List.filterMap_cons]
    cases he : modelEntry lg ns ys m with
    | none => exact ih hm.2
    | some e =>
      refine List.pairwise_cons.mpr ⟨?_, ih hm.2⟩
      intro e2 he2
      rcases List.mem_filterMap.mp he2 with ⟨m2, hm2, hme2⟩
      rw [(modelEntry_inv he).1, (modelEntry_inv hme2).1]
      exact hm.1 m2 hm2

theorem resultsOf_pairwise (lg : ℤ → ℚ) (ns : List ℤ) (ys : List ℚ) :
    (resultsOf lg ns ys).Pairwise
      (fun a b => menuRank a.name < menuRank b.name) := by
  refine List.pairwise_cons.mpr
    ⟨?_, pairwise_filterMap_rank lg ns ys menuTail (by decide)⟩
  intro e he
  rcases List.mem_filterMap.mp he with ⟨m, hm, hme⟩
  rw [(modelEntry_inv hme).1]
  have h0 : 0 < menuRank m := by
    simp only [menuTail, List.mem_cons, List.not_mem_nil, or_false] at hm
    rcases hm with rfl | rfl | rfl | rfl | rfl | rfl <;> decide
  simpa [o1Entry, menuRank] using h0

theorem sortedFit_pairwise (lg : ℤ → ℚ) (ns : List ℤ) (ys : List ℚ) :
    (sortedFit lg ns ys).Pairwise
      (fun a b => b.r2 < a.r2 ∨ menuRank a.name < menuRank b.name) :=
  pairwise_sortDesc _ _ (resultsOf_pairwise lg ns ys)

/-! ### Claim C2 -/

/-- C2: for every Estimator input whose top-ranked surviving model has
R² below 0.5 while the coefficient of variation of the raw measurements
is below 0.3, the Estimator returns O(1) regardless of which model ranked
highest.  (`headI` of the sorted results list is `best = results[0]`.) -/
theorem estimator_noise_override (lg : ℤ → ℚ) (ns : List ℤ) (ys : List ℚ)
    (h1 : (sortedFit lg ns ys).headI.r2 < 1 / 2) (h2 : cvLt ys = true) :
    (fit_complexity lg ns ys).1 = CName.o1 := by
  unfold fit_complexity
  split
  · rfl
  · split
    · rfl
    · next best rest hs =>
      rw [hs, List.headI_cons] at h1
      rw [if_pos (by rw [decide_eq_true h1, h2]; rfl)]
      split <;> rfl

set_option maxHeartbeats 1600000 in
/-- C2 witness: sizes `[1,2,4,8]` with measurements `[10,11,10,11]`: the
top-ranked model (`O(2ⁿ)`, R² = 14641/46491 ≈ 0.31) scores below 0.5 and
cv ≈ 0.048 < 0.3, and the estimator returns O(1). -/
theorem estimator_noise_override_witness :
    (sortedFit lgW [1, 2, 4, 8] [10, 11, 10, 11]).headI.r2 < 1 / 2 ∧
      cvLt [10, 11, 10, 11] = true ∧
      (fit_complexity lgW [1, 2, 4, 8] [10, 11, 10, 11]).1 = CName.o1 := by
  have h1 : (sortedFit lgW [1, 2, 4, 8] [10, 11, 10, 11]).headI.r2 < 1 / 2 := by
    norm_num [sortedFit, resultsOf, modelEntry, o1Entry, menuTail, insertDesc,
      sortDesc, transform, lgW, mean, sumQ, ssTot, varP, covSum, ssRes,
      List.filterMap_cons, List.filterMap_nil,
      show ((2 : ℤ).toNat) = 2 from rfl, show ((4 : ℤ).toNat) = 4 from rfl,
      show ((8 : ℤ).toNat) = 8 from rfl]
  have h2 : cvLt [10, 11, 10, 11] = true := by
    norm_num [cvLt, mean, sumQ, ssTot, varP]
  exact ⟨h1, h2, estimator_noise_override lgW [1, 2, 4, 8] [10, 11, 10, 11] h1 h2⟩

/-! ### Claim C3 -/

/-- C3 counterexample: for the constant series `[5,5,5]` the claim says
the Estimator "returns O(1) with R² = 1"; the degenerate branch does
return O(1), but its return value carries an empty results list and no
R² anywhere — in particular not the scalar R² slot (`FitExtra.rsq`) that
line 167's `return r` path would populate, so no component equals an
R² of 1. -/
theorem estimator_constant_counterexample :
    fit_complexity lg0 [1, 2, 3] [5, 5, 5] =
        (CName.o1, (5, 0), FitExtra.results []) ∧
      (fit_complexity lg0 [1, 2, 3] [5, 5, 5]).2.2 ≠ FitExtra.rsq 1 := by
  have h : fit_complexity lg0 [1, 2, 3] [5, 5, 5] =
      (CName.o1, (5, 0), FitExtra.results []) := by
    norm_num [fit_complexity, mean, sumQ, ssTot, varP]
  exact ⟨h, by rw [h]; simp⟩

/-- C3 (amended): for every nonempty measurement series with all samples
equal, the Estimator takes the degenerate branch and returns O(1) with
the mean as fitted value, performing no regression: the returned results
list is empty and no R² value is part of the return. -/
theorem estimator_constant_series (lg : ℤ → ℚ) (ns : List ℤ) (ys : List ℚ)
    (hne : ys ≠ []) (hconst : ∀ y ∈ ys, y = ys.headI) :
    fit_complexity lg ns ys = (CName.o1, (mean ys, 0), FitExtra.results []) := by
  have hv : varP ys = 0 := varP_const ys ys.headI hne hconst
  unfold fit_complexity
  rw [if_pos (by rw [hv]; norm_num)]

/-- C3 witness: the amended statement applied to the series `[5,5,5]`. -/
theorem estimator_constant_series_witness :
    (([5, 5, 5] : List ℚ) ≠ [] ∧ ∀ y ∈ ([5, 5, 5] : List ℚ), y = ([5, 5, 5] : List ℚ).headI) ∧
      fit_complexity lg0 [1, 2, 3] [5, 5, 5] =
        (CName.o1, (mean [5, 5, 5], 0), FitExtra.results []) :=
  ⟨⟨by simp, by simp⟩,
    estimator_constant_series lg0 [1, 2, 3] [5, 5, 5] (by simp) (by simp)⟩

/-! ### Claim C6 -/

/-- C6: the selected model is never a non-constant model whose fitted
least-squares scale `a` is ≤ 0: whenever the Estimator's selection is not
O(1), its `a` parameter is strictly positive (models failing the `a > 0`
test were discarded before ranking). -/
theorem estimator_positive_scale (lg : ℤ → ℚ) (ns : List ℤ) (ys : List ℚ)
    (h : (fit_complexity lg ns ys).1 ≠ CName.o1) :
    0 < (fit_complexity lg ns ys).2.1.1 := by
  rcases hfc : fit_complexity lg ns ys with ⟨nm, ⟨a, b⟩, ex⟩
  rw [hfc] at h
  simp only at h ⊢
  unfold fit_complexity at hfc
  split at hfc
  · exact absurd (congrArg Prod.fst hfc).symm h
  · split at hfc
    · exact absurd (congrArg Prod.fst hfc).symm h
    · next best rest hs =>
      split at hfc
      · split at hfc <;>
          exact absurd (congrArg Prod.fst hfc).symm h
      · have hb : best ∈ resultsOf lg ns ys := by
          have : best ∈ sortedFit lg ns ys := by
            rw [hs]; exact List.mem_cons_self best rest
          exact mem_sortDesc.mp this
        have hnm : nm = best.name := (congrArg Prod.fst hfc).symm
        have hA : a = best.a := by
          have := congrArg (fun q => q.2.1.1) hfc
          simpa using this.symm
        rw [hA]
        exact resultsOf_pos hb (by rw [← hnm]; exact h)

set_option maxHeartbeats 1600000 in
/-- C6 witness: sizes `[1,2]`, measurements `[1,2]`: the selection is
`O(log n)` (not O(1)) and its fitted scale is `1 > 0`. -/
theorem estimator_positive_scale_witness :
    (fit_complexity lgW [1, 2] [1, 2]).1 ≠ CName.o1 ∧
      0 < (fit_complexity lgW [1, 2] [1, 2]).2.1.1 := by
  have h : (fit_complexity lgW [1, 2] [1, 2]).1 ≠ CName.o1 := by
    norm_num [fit_complexity, sortedFit, resultsOf, modelEntry, o1Entry, menuTail,
      insertDesc, sortDesc, cvLt, transform, lgW, mean, sumQ, ssTot, varP, covSum,
      ssRes, List.filterMap_cons, List.filterMap_nil,
      show ((2 : ℤ).toNat) = 2 from rfl]
    decide
  exact ⟨h, estimator_positive_scale lgW [1, 2] [1, 2] h⟩

/-! ### Claim C7 -/

/-- C7: when two surviving models have exactly equal R² scores, the
ranked results list orders them by their position in the candidate menu:
whenever entry `e1` appears anywhere before entry `e2` in the sorted
results list and their R² scores are equal, `e1`'s menu rank is strictly
smaller (the sort by descending R² is stable, and the unsorted results
list is in menu order). -/
theorem estimator_stable_tiebreak (lg : ℤ → ℚ) (ns : List ℤ) (ys : List ℚ)
    (l1 l2 l3 : List FitEntry) (e1 e2 : FitEntry)
    (h : sortedFit lg ns ys = l1 ++ (e1 :: (l2 ++ (e2 :: l3))))
    (heq : e1.r2 = e2.r2) :
    menuRank e1.name < menuRank e2.name := by
  have hsub : List.Sublist [e1, e2] (sortedFit lg ns ys) := by
    rw [h]
    refine List.Sublist.trans ?_ (List.sublist_append_right l1 _)
    refine List.Sublist.cons₂ e1 ?_
    refine List.Sublist.trans ?_ (List.sublist_append_right l2 _)
    exact List.Sublist.cons₂ e2 (List.nil_sublist l3)
  have hp := (sortedFit_pairwise lg ns ys).sublist hsub
  rcases (List.pairwise_cons.mp hp).1 e2 (List.mem_singleton.mpr rfl) with hlt | hrank
  · rw [heq] at hlt
    exact absurd hlt (lt_irrefl _)
  · exact hrank

set_option maxHeartbeats 1600000 in
/-- C7 witness: sizes `[1,2]`, measurements `[1,2]`: all six non-constant
models fit perfectly (R² = 1, a six-way tie) and the ranked list opens
with `O(log n)` then `O(n)` — menu order. -/
theorem estimator_stable_tiebreak_witness :
    sortedFit lgW [1, 2] [1, 2] =
        [] ++ ((⟨.ologn, 1, 1, 1⟩ : FitEntry) :: ([] ++ ((⟨.olinear, 1, 0, 1⟩ : FitEntry) ::
          [⟨.onlogn, 1 / 2, 1, 1⟩, ⟨.oquad, 1 / 3, 2 / 3, 1⟩, ⟨.ocube, 1 / 7, 6 / 7, 1⟩,
            ⟨.oexp, 1 / 2, 0, 1⟩, ⟨.o1, 3 / 2, 0, 0⟩]))) ∧
      menuRank CName.ologn < menuRank CName.olinear := by
  have h : sortedFit lgW [1, 2] [1, 2] =
      [] ++ ((⟨.ologn, 1, 1, 1⟩ : FitEntry) :: ([] ++ ((⟨.olinear, 1, 0, 1⟩ : FitEntry) ::
        [⟨.onlogn, 1 / 2, 1, 1⟩, ⟨.oquad, 1 / 3, 2 / 3, 1⟩, ⟨.ocube, 1 / 7, 6 / 7, 1⟩,
          ⟨.oexp, 1 / 2, 0, 1⟩, ⟨.o1, 3 / 2, 0, 0⟩]))) := by
    norm_num [sortedFit, resultsOf, modelEntry, o1Entry, menuTail, insertDesc,
      sortDesc, transform, lgW, mean, sumQ, ssTot, varP, covSum, ssRes,
      List.filterMap_cons, List.filterMap_nil,
      show ((2 : ℤ).toNat) = 2 from rfl]
  exact ⟨h, estimator_stable_tiebreak lgW [1, 2] [1, 2] [] []
    [⟨.onlogn, 1 / 2, 1, 1⟩, ⟨.oquad, 1 / 3, 2 / 3, 1⟩, ⟨.ocube, 1 / 7, 6 / 7, 1⟩,
      ⟨.oexp, 1 / 2, 0, 1⟩, ⟨.o1, 3 / 2, 0, 0⟩]
    ⟨.ologn, 1, 1, 1⟩ ⟨.olinear, 1, 0, 1⟩ h rfl⟩

/-! ### Driver lemmas -/

theorem stepOutcomes_cons_err (tape : ℕ → ℚ × ℚ) (solve : α → Except String β)
    (check : Check α β) (tmax rmax : ℚ) (t : α) (ts : List α) (p : ℕ) (e : String)
    (hsv : solve t = .error e) :
    stepOutcomes tape solve check tmax rmax (t :: ts) p =
      .err e :: stepOutcomes tape solve check tmax rmax ts (p + 1) := by
  simp [stepOutcomes, hsv]

theorem stepOutcomes_cons_ok (tape : ℕ → ℚ × ℚ) (solve : α → Except String β)
    (check : Check α β) (tmax rmax : ℚ) (t : α) (ts : List α) (p : ℕ) (res : β)
    (hsv : solve t = .ok res) :
    stepOutcomes tape solve check tmax rmax (t :: ts) p =
      .ver (check t res (p + 2) tmax rmax) ::
        stepOutcomes tape solve check tmax rmax ts
          (p + 2 + (check t res (p + 2) tmax rmax).consumed) := by
  simp [stepOutcomes, hsv]

/-- If the first `k` per-test outcomes pass and the `(k+1)`-st is a
verdict with a false field, the evaluation loop returns failure, prints
exactly the priority-ordered failure message for test number `i + k`, and
invokes the solution exactly on tests `i .. i + k`. -/
theorem runTests_first_fail (tape : ℕ → ℚ × ℚ) (solve : α → Except String β)
    (check : Check α β) (tmax rmax : ℚ) (sizeOf : Option (α → ℕ)) :
    ∀ (tests : List α) (k i p : ℕ) (c : CheckRet),
      (∀ j, j < k →
        ((stepOutcomes tape solve check tmax rmax tests p).getD j (.err "")).pass = true) →
      (stepOutcomes tape solve check tmax rmax tests p).getD k (.err "") = .ver c →
      c.allOk = false →
      (runTests tape solve check tmax rmax sizeOf tests i p).result = false ∧
        (runTests tape solve check tmax rmax sizeOf tests i p).msgs = [failMsg (i + k) c] ∧
        (runTests tape solve check tmax rmax sizeOf tests i p).invoked =
          List.range' i (k + 1) := by
  intro tests
  induction tests with
  | nil =>
    intro k i p c hpre hk hko
    simp [stepOutcomes] at hk
  | cons t ts ih =>
    intro k i p c hpre hk hko
    cases hsv : solve t with
    | error e =>
      have hso := stepOutcomes_cons_err tape solve check tmax rmax t ts p e hsv
      cases k with
      | zero =>
        rw [hso, List.getD_cons_zero] at hk
        exact absurd hk (by simp)
      | succ k2 =>
        have h0 := hpre 0 (Nat.succ_pos k2)
        rw [hso, List.getD_cons_zero] at h0
        simp [StepOut.pass] at h0
    | ok res =>
      have hso := stepOutcomes_cons_ok tape solve check tmax rmax t ts p res hsv
      cases k with
      | zero =>
        rw [hso, List.getD_cons_zero] at hk
        have hc : check t res (p + 2) tmax rmax = c := by injection hk
        refine ⟨?_, ?_, ?_⟩ <;>
          simp [runTests, hsv, hc, hko, List.range'_one]
      | succ k2 =>
        have h0 := hpre 0 (Nat.succ_pos k2)
        rw [hso, List.getD_cons_zero] at h0
        simp only [StepOut.pass] at h0
        obtain ⟨hr, hm, hi⟩ := ih k2 (i + 1)
          (p + 2 + (check t res (p + 2) tmax rmax).consumed) c
          (fun j hj => by
            have hj2 := hpre (j + 1) (Nat.succ_lt_succ hj)
            rw [hso, List.getD_cons_succ] at hj2
            exact hj2)
          (by rw [hso, List.getD_cons_succ] at hk; exact hk)
          hko
        have harith : i + 1 + k2 = i + (k2 + 1) := by omega
        have hrange : List.range' i (k2 + 1 + 1) = i :: List.range' (i + 1) (k2 + 1) :=
          List.range'_succ i (k2 + 1) 1
        refine ⟨?_, ?_, ?_⟩ <;>
          simp [runTests, hsv, h0, hr, hm, hi, harith, hrange]

/-! ### Claim C1 -/

/-- C1: if the first `k` (0-based) per-test outcomes pass and the
outcome at index `k` is an Oracle verdict with a false field, then
`internal_evaluation` returns overall failure, prints exactly one failure
message — the priority-ordered (accuracy, then time, then memory) message
for test number `k + 1` — and invokes the candidate solution exactly on
tests `1 .. k + 1`: never on tests `k + 2 .. N`. -/
theorem driver_early_exit (tape : ℕ → ℚ × ℚ) (solve : α → Except String β)
    (check : Check α β) (tmax rmax : ℚ) (sizeOf : Option (α → ℕ))
    (tests : List α) (k : ℕ) (c : CheckRet)
    (hpre : ∀ j, j < k →
      ((stepOutcomes tape solve check tmax rmax tests 0).getD j (.err "")).pass = true)
    (hk : (stepOutcomes tape solve check tmax rmax tests 0).getD k (.err "") = .ver c)
    (hko : c.allOk = false) :
    (internalEvalTrace tape true tests solve check tmax rmax sizeOf).result = false ∧
      (internalEvalTrace tape true tests solve check tmax rmax sizeOf).msgs =
        [failMsg (k + 1) c] ∧
      (internalEvalTrace tape true tests solve check tmax rmax sizeOf).invoked =
        List.range' 1 (k + 1) := by
  have hne : tests ≠ [] := by
    intro h
    rw [h] at hk
    simp [stepOutcomes] at hk
  obtain ⟨hr, hm, hi⟩ :=
    runTests_first_fail tape solve check tmax rmax sizeOf tests k 1 0 c hpre hk hko
  have hadd : 1 + k = k + 1 := by omega
  rw [hadd] at hm
  have hempty : tests.isEmpty = false := by
    cases tests with
    | nil => exact absurd rfl hne
    | cons a l => rfl
  refine ⟨?_, ?_, ?_⟩ <;>
    simp [internalEvalTrace, hempty, hr, hm, hi]

/-- C1 witness: three tests, an oracle whose verdict fails accuracy
exactly on the second: the driver fails, reports the wrong answer at test
2, and invokes the solution only on tests 1 and 2. -/
theorem driver_early_exit_witness :
    ((∀ j, j < 1 →
        ((stepOutcomes (tapeOf []) (fun t => Except.ok t) checkW 10 1000
          [10, 20, 30] 0).getD j (.err "")).pass = true) ∧
      (stepOutcomes (tapeOf []) (fun t => Except.ok t) checkW 10 1000
          [10, 20, 30] 0).getD 1 (.err "") =
        .ver ⟨false, true, true, none, [], 0⟩ ∧
      CheckRet.allOk ⟨false, true, true, none, [], 0⟩ = false) ∧
      (internalEvalTrace (tapeOf []) true [10, 20, 30] (fun t => Except.ok t)
          checkW 10 1000 none).result = false ∧
        (internalEvalTrace (tapeOf []) true [10, 20, 30] (fun t => Except.ok t)
            checkW 10 1000 none).msgs = [failMsg 2 ⟨false, true, true, none, [], 0⟩] ∧
        (internalEvalTrace (tapeOf []) true [10, 20, 30] (fun t => Except.ok t)
            checkW 10 1000 none).invoked = List.range' 1 2 :=
  ⟨⟨by decide, by decide, by decide⟩,
    driver_early_exit (tapeOf []) (fun t => Except.ok t) checkW 10 1000 none
      [10, 20, 30] 1 ⟨false, true, true, none, [], 0⟩
      (by decide) (by decide) (by decide)⟩

/-! ### Claim C5 -/

/-- If the first `k` per-test outcomes pass and the solution raises at
index `k`, the loop stops there: failure, a single runtime-error message
for test number `i + k`, invocations exactly on `i .. i + k`, and only
`k` oracle calls (none for the raising test). -/
theorem runTests_runtime_error (tape : ℕ → ℚ × ℚ) (solve : α → Except String β)
    (check : Check α β) (tmax rmax : ℚ) (sizeOf : Option (α → ℕ)) :
    ∀ (tests : List α) (k i p : ℕ) (e : String),
      k < tests.length →
      (∀ j, j < k →
        ((stepOutcomes tape solve check tmax rmax tests p).getD j (.err "")).pass = true) →
      (stepOutcomes tape solve check tmax rmax tests p).getD k (.err "x") = .err e →
      (runTests tape solve check tmax rmax sizeOf tests i p).result = false ∧
        (runTests tape solve check tmax rmax sizeOf tests i p).msgs =
          [.runtimeError (i + k) e] ∧
        (runTests tape solve check tmax rmax sizeOf tests i p).invoked =
          List.range' i (k + 1) ∧
        (runTests tape solve check tmax rmax sizeOf tests i p).oracleArgs.length = k := by
  intro tests
  induction tests with
  | nil =>
    intro k i p e hlen hpre hk
    simp at hlen
  | cons t ts ih =>
    intro k i p e hlen hpre hk
    cases hsv : solve t with
    | error e0 =>
      have hso := stepOutcomes_cons_err tape solve check tmax rmax t ts p e0 hsv
      cases k with
      | zero =>
        rw [hso, List.getD_cons_zero] at hk
        have he : e0 = e := by injection hk
        refine ⟨?_, ?_, ?_, ?_⟩ <;>
          simp [runTests, hsv, he, List.range'_one]
      | succ k2 =>
        have h0 := hpre 0 (Nat.succ_pos k2)
        rw [hso, List.getD_cons_zero] at h0
        simp [StepOut.pass] at h0
    | ok res =>
      have hso := stepOutcomes_cons_ok tape solve check tmax rmax t ts p res hsv
      cases k with
      | zero =>
        rw [hso, List.getD_cons_zero] at hk
        exact absurd hk (by simp)
      | succ k2 =>
        have h0 := hpre 0 (Nat.succ_pos k2)
        rw [hso, List.getD_cons_zero] at h0
        simp only [StepOut.pass] at h0
        obtain ⟨hr, hm, hi, ho⟩ := ih k2 (i + 1)
          (p + 2 + (check t res (p + 2) tmax rmax).consumed) e
          (by simpa using Nat.lt_of_succ_lt_succ (by simpa using hlen))
          (fun j hj => by
            have hj2 := hpre (j + 1) (Nat.succ_lt_succ hj)
            rw [hso, List.getD_cons_succ] at hj2
            exact hj2)
          (by rw [hso, List.getD_cons_succ] at hk; exact hk)
        have harith : i + 1 + k2 = i + (k2 + 1) := by omega
        have hrange : List.range' i (k2 + 1 + 1) = i :: List.range' (i + 1) (k2 + 1) :=
          List.range'_succ i (k2 + 1) 1
        refine ⟨?_, ?_, ?_, ?_⟩ <;>
          simp [runTests, hsv, h0, hr, hm, hi, ho, harith, hrange]

/-- C5: if the candidate solution raises at index `k` (after `k` passing
tests), `internal_evaluation` aborts immediately: overall failure, a
single runtime-error message for test number `k + 1` tagged by a
constructor distinct from both the wrong-answer and the custom accuracy
message, no oracle verdict computed for that test (exactly `k` oracle
calls), and no test after `k + 1` evaluated. -/
theorem driver_runtime_error (tape : ℕ → ℚ × ℚ) (solve : α → Except String β)
    (check : Check α β) (tmax rmax : ℚ) (sizeOf : Option (α → ℕ))
    (tests : List α) (k : ℕ) (e : String) (hlen : k < tests.length)
    (hpre : ∀ j, j < k →
      ((stepOutcomes tape solve check tmax rmax tests 0).getD j (.err "")).pass = true)
    (hk : (stepOutcomes tape solve check tmax rmax tests 0).getD k (.err "x") = .err e) :
    (internalEvalTrace tape true tests solve check tmax rmax sizeOf).result = false ∧
      (internalEvalTrace tape true tests solve check tmax rmax sizeOf).msgs =
        [.runtimeError (k + 1) e] ∧
      (internalEvalTrace tape true tests solve check tmax rmax sizeOf).invoked =
        List.range' 1 (k + 1) ∧
      (internalEvalTrace tape true tests solve check tmax rmax
          sizeOf).oracleArgs.length = k ∧
      (∀ i2, Msg.runtimeError (k + 1) e ≠ Msg.wrongAnswer i2) ∧
      (∀ m, Msg.runtimeError (k + 1) e ≠ Msg.custom m) := by
  have hne : tests ≠ [] := by
    intro h
    rw [h] at hlen
    simp at hlen
  obtain ⟨hr, hm, hi, ho⟩ :=
    runTests_runtime_error tape solve check tmax rmax sizeOf tests k 1 0 e hlen hpre hk
  have hadd : 1 + k = k + 1 := by omega
  rw [hadd] at hm
  have hempty : tests.isEmpty = false := by
    cases tests with
    | nil => exact absurd rfl hne
    | cons a l => rfl
  refine ⟨?_, ?_, ?_, ?_, fun i2 => by simp, fun m => by simp⟩ <;>
    simp [internalEvalTrace, hempty, hr, hm, hi, ho]

/-- C5 witness: three tests, the solution raising "boom" on the second:
the driver aborts at test 2 with the runtime-error message, one oracle
call total, and test 3 never invoked. -/
theorem driver_runtime_error_witness :
    ((1 < ([10, 20, 30] : List ℕ).length) ∧
      (∀ j, j < 1 →
        ((stepOutcomes (tapeOf []) solveErrW okCheckW 10 1000
          [10, 20, 30] 0).getD j (.err "")).pass = true) ∧
      (stepOutcomes (tapeOf []) solveErrW okCheckW 10 1000
          [10, 20, 30] 0).getD 1 (.err "x") = .err "boom") ∧
      (internalEvalTrace (tapeOf []) true [10, 20, 30] solveErrW okCheckW
          10 1000 none).result = false ∧
        (internalEvalTrace (tapeOf []) true [10, 20, 30] solveErrW okCheckW
            10 1000 none).msgs = [.runtimeError 2 "boom"] ∧
        (internalEvalTrace (tapeOf []) true [10, 20, 30] solveErrW okCheckW
            10 1000 none).invoked = List.range' 1 2 ∧
        (internalEvalTrace (tapeOf []) true [10, 20, 30] solveErrW okCheckW
            10 1000 none).oracleArgs.length = 1 ∧
        (∀ i2, Msg.runtimeError 2 "boom" ≠ Msg.wrongAnswer i2) ∧
        (∀ m, Msg.runtimeError 2 "boom" ≠ Msg.custom m) :=
  ⟨⟨by decide, by decide, by decide⟩,
    driver_runtime_error (tapeOf []) solveErrW okCheckW 10 1000 none
      [10, 20, 30] 1 "boom" (by decide) (by decide) (by decide)⟩

/-! ### Claim C8 -/

theorem runTests_memB_nonneg (tape : ℕ → ℚ × ℚ) (solve : α → Except String β)
    (check : Check α β) (tmax rmax : ℚ) (so : Option (α → ℕ)) :
    ∀ (tests : List α) (i p : ℕ) (x : ℕ × ℚ),
      x ∈ (runTests tape solve check tmax rmax so tests i p).memB → 0 ≤ x.2 := by
  intro tests
  induction tests with
  | nil =>
    intro i p x hx
    simp [runTests] at hx
  | cons t ts ih =>
    intro i p x hx
    cases hsv : solve t with
    | error e =>
      simp [runTests, hsv] at hx
    | ok res =>
      by_cases hok : (check t res (p + 2) tmax rmax).allOk = true
      · cases so with
        | none =>
          simp [runTests, hsv, hok] at hx
          exact ih (i + 1) _ x hx
        | some f =>
          simp [runTests, hsv, hok] at hx
          rcases hx with hx | hx
          · rw [hx]
            exact le_max_left 0 _
          · exact ih (i + 1) _ x hx
      · cases so with
        | none =>
          simp [runTests, hsv, hok] at hx
        | some f =>
          simp [runTests, hsv, hok] at hx
          rw [hx]
          exact le_max_left 0 _

theorem internalEvalTrace_memB (tape : ℕ → ℚ × ℚ) (fe : Bool) (tests : List α)
    (solve : α → Except String β) (check : Check α β) (tmax rmax : ℚ)
    (so : Option (α → ℕ)) :
    (internalEvalTrace tape fe tests solve check tmax rmax so).memB = [] ∨
      (internalEvalTrace tape fe tests solve check tmax rmax so).memB =
        (runTests tape solve check tmax rmax so tests 1 0).memB := by
  unfold internalEvalTrace
  split
  · exact Or.inl rfl
  · split
    · exact Or.inl rfl
    · right
      dsimp only
      split <;> rfl

/-- C8: every memory sample the driver records is nonnegative (the raw
delta is clamped through `max 0 ·`), and in particular the run whose
three same-size invocations have raw deltas `[-50, 0, 200]` records the
bucket samples `[0, 0, 200]`. -/
theorem driver_memory_clamped :
    (∀ (α β : Type) (tape : ℕ → ℚ × ℚ) (fe : Bool) (tests : List α)
      (solve : α → Except String β) (check : Check α β) (tmax rmax : ℚ)
      (so : Option (α → ℕ)),
      ((internalEvalTrace tape fe tests solve check tmax rmax so).memB.all
        (fun s => decide (0 ≤ s.2))) = true) ∧
      (internalEvalTrace tapeC8 true [0, 0, 0] (fun t => Except.ok t) okCheckW
          1 1000 (some (fun _ => 5))).memB = [(5, 0), (5, 0), (5, 200)] := by
  constructor
  · intro α β tape fe tests solve check tmax rmax so
    rw [List.all_eq_true]
    intro s hs
    rw [decide_eq_true_iff]
    rcases internalEvalTrace_memB tape fe tests solve check tmax rmax so with h | h
    · rw [h] at hs
      exact absurd hs (List.not_mem_nil s)
    · rw [h] at hs
      exact runTests_memB_nonneg tape solve check tmax rmax so tests 1 0 s hs
  · norm_num [internalEvalTrace, runTests, tapeC8, okCheckW, CheckRet.allOk, max_def]

/-! ### Claim C9 -/

theorem runTests_result_iff (tape : ℕ → ℚ × ℚ) (solve : α → Except String β)
    (check : Check α β) (tmax rmax : ℚ) (so : Option (α → ℕ)) :
    ∀ (tests : List α) (i p : ℕ),
      (runTests tape solve check tmax rmax so tests i p).result = true ↔
        ∀ s ∈ stepOutcomes tape solve check tmax rmax tests p, s.pass = true := by
  intro tests
  induction tests with
  | nil =>
    intro i p
    simp [runTests, stepOutcomes]
  | cons t ts ih =>
    intro i p
    cases hsv : solve t with
    | error e =>
      rw [stepOutcomes_cons_err tape solve check tmax rmax t ts p e hsv]
      simp [runTests, hsv, StepOut.pass]
    | ok res =>
      rw [stepOutcomes_cons_ok tape solve check tmax rmax t ts p res hsv]
      by_cases hok : (check t res (p + 2) tmax rmax).allOk = true
      · simp [runTests, hsv, hok, StepOut.pass, ih]
      · simp [runTests, hsv, hok, StepOut.pass]

/-- C9 counterexample: the claim says the entry point returns
`(passed, samples_by_size)`.  Two runs differing only in the probe's
memory readings return the *same* value from `internal_evaluation` while
accumulating *different* memory buckets, so the function's return value
(the `all_passed` boolean alone) cannot contain the buckets. -/
theorem evaluation_return_no_buckets :
    internal_evaluation tapeZeroDelta true [0] (fun t => Except.ok t) okCheckW
        10 1000 (some (fun _ => 5)) =
      internal_evaluation tapePosDelta true [0] (fun t => Except.ok t) okCheckW
        10 1000 (some (fun _ => 5)) ∧
      (internalEvalTrace tapeZeroDelta true [0] (fun t => Except.ok t) okCheckW
          10 1000 (some (fun _ => 5))).memB ≠
        (internalEvalTrace tapePosDelta true [0] (fun t => Except.ok t) okCheckW
            10 1000 (some (fun _ => 5))).memB := by
  constructor
  · norm_num [internal_evaluation, internalEvalTrace, runTests, tapeZeroDelta,
      tapePosDelta, okCheckW, CheckRet.allOk]
  · norm_num [internalEvalTrace, runTests, tapeZeroDelta, tapePosDelta, okCheckW,
      CheckRet.allOk, max_def]

/-- C9 (amended): the evaluation entry point returns only the boolean
pass result — true exactly when the test file exists, the parsed test
list is nonempty, and every test's invocation succeeds with an all-true
verdict; the size-to-sample buckets are accumulated internally (they are
trace state handed to the plotter), not part of the return value. -/
theorem internal_evaluation_bool_contract :
    ∀ (α β : Type) (tape : ℕ → ℚ × ℚ) (fe : Bool) (tests : List α)
      (solve : α → Except String β) (check : Check α β) (tmax rmax : ℚ)
      (so : Option (α → ℕ)),
      internal_evaluation tape fe tests solve check tmax rmax so = true ↔
        (fe = true ∧ tests ≠ [] ∧
          ∀ s ∈ stepOutcomes tape solve check tmax rmax tests 0, s.pass = true) := by
  intro α β tape fe tests solve check tmax rmax so
  unfold internal_evaluation internalEvalTrace
  split
  · next hfe =>
    simp only [Bool.not_eq_true'] at hfe
    simp [hfe]
  · next hfe =>
    simp only [Bool.not_eq_true', Bool.not_eq_false] at hfe
    split
    · next hemp =>
      rw [List.isEmpty_iff] at hemp
      simp [hfe, hemp]
    · next hemp =>
      rw [List.isEmpty_iff] at hemp
      have hres : (let tr := runTests tape solve check tmax rmax so tests 1 0;
          if tr.result = true then
            { tr with msgs := tr.msgs ++ [Msg.allPassed tests.length] }
          else tr).result =
          (runTests tape solve check tmax rmax so tests 1 0).result := by
        dsimp only
        split <;> rfl
      rw [hres, runTests_result_iff tape solve check tmax rmax so tests 1 0]
      simp [hfe, hemp]

/-! ### Claim C10 -/

/-- C10: on the empty test sequence the two entry points diverge:
`evaluate_on_samples []` returns true and prints the all-passed summary,
while `internal_evaluation` on an empty parsed test list returns false
with the no-tests message. -/
theorem empty_tests_divergence :
    ∀ (α β : Type) (tape : ℕ → ℚ × ℚ) (solve : α → Except String β)
      (check : Check α β) (tmax rmax : ℚ) (so : Option (α → ℕ)),
      evaluate_on_samples tape [] solve check tmax rmax = true ∧
        (evalOnSamplesTrace tape [] solve check tmax rmax).msgs =
          [Msg.allSamplesPassed 0] ∧
        internal_evaluation tape true [] solve check tmax rmax so = false ∧
        (internalEvalTrace tape true [] solve check tmax rmax so).msgs =
          [Msg.noTests] := by
  intro α β tape solve check tmax rmax so
  exact ⟨rfl, rfl, rfl, rfl⟩

/-! ### Claim C4 -/

theorem runTests_oracleArgs_limits (tape : ℕ → ℚ × ℚ) (solve : α → Except String β)
    (check : Check α β) (tmax rmax : ℚ) (so : Option (α → ℕ)) :
    ∀ (tests : List α) (i p : ℕ) (x : α × β × ℕ × ℚ × ℚ),
      x ∈ (runTests tape solve check tmax rmax so tests i p).oracleArgs →
      x.2.2.2.1 = tmax ∧ x.2.2.2.2 = rmax := by
  intro tests
  induction tests with
  | nil =>
    intro i p x hx
    simp [runTests] at hx
  | cons t ts ih =>
    intro i p x hx
    cases hsv : solve t with
    | error e =>
      simp [runTests, hsv] at hx
    | ok res =>
      by_cases hok : (check t res (p + 2) tmax rmax).allOk = true
      · simp [runTests, hsv, hok] at hx
        rcases hx with hx | hx
        · rw [hx]
          exact ⟨rfl, rfl⟩
        · exact ih (i + 1) _ x hx
      · simp [runTests, hsv, hok] at hx
        rw [hx]
        exact ⟨rfl, rfl⟩

theorem internalEvalTrace_oracleArgs (tape : ℕ → ℚ × ℚ) (fe : Bool) (tests : List α)
    (solve : α → Except String β) (check : Check α β) (tmax rmax : ℚ)
    (so : Option (α → ℕ)) :
    (internalEvalTrace tape fe tests solve check tmax rmax so).oracleArgs = [] ∨
      (internalEvalTrace tape fe tests solve check tmax rmax so).oracleArgs =
        (runTests tape solve check tmax rmax so tests 1 0).oracleArgs := by
  unfold internalEvalTrace
  split
  · exact Or.inl rfl
  · split
    · exact Or.inl rfl
    · right
      dsimp only
      split <;> rfl

theorem failMsg_congr (i : ℕ) (c1 c2 : CheckRet) (h : c1.used = c2.used) :
    failMsg i c1 = failMsg i c2 := by
  have ha : c1.accurate = c2.accurate := congrArg (fun u => u.1) h
  have ht : c1.time_ok = c2.time_ok := congrArg (fun u => u.2.1) h
  have hmsg : c1.message = c2.message := congrArg (fun u => u.2.2.2.1) h
  unfold failMsg
  rw [ha, ht, hmsg]

/-- The driver's behaviour depends on a checker only through the verdict
fields it reads back and through the probe readings the checker itself
consumes: two checkers agreeing on those (they may disagree on tuple
elements past the fourth) produce identical traces. -/
theorem runTests_check_ext (tape : ℕ → ℚ × ℚ) (solve : α → Except String β)
    (c1 c2 : Check α β) (tmax rmax : ℚ) (so : Option (α → ℕ))
    (h : ∀ t r pr a b, (c1 t r pr a b).used = (c2 t r pr a b).used) :
    ∀ (tests : List α) (i p : ℕ),
      runTests tape solve c1 tmax rmax so tests i p =
        runTests tape solve c2 tmax rmax so tests i p := by
  intro tests
  induction tests with
  | nil =>
    intro i p
    rfl
  | cons t ts ih =>
    intro i p
    cases hsv : solve t with
    | error e =>
      simp [runTests, hsv]
    | ok res =>
      have hu := h t res (p + 2) tmax rmax
      have ha : (c1 t res (p + 2) tmax rmax).accurate =
          (c2 t res (p + 2) tmax rmax).accurate := congrArg (fun u => u.1) hu
      have ht : (c1 t res (p + 2) tmax rmax).time_ok =
          (c2 t res (p + 2) tmax rmax).time_ok := congrArg (fun u => u.2.1) hu
      have hm : (c1 t res (p + 2) tmax rmax).memory_ok =
          (c2 t res (p + 2) tmax rmax).memory_ok := congrArg (fun u => u.2.2.1) hu
      have hcons : (c1 t res (p + 2) tmax rmax).consumed =
          (c2 t res (p + 2) tmax rmax).consumed := congrArg (fun u => u.2.2.2.2) hu
      have hok : (c1 t res (p + 2) tmax rmax).allOk =
          (c2 t res (p + 2) tmax rmax).allOk := by
        simp [CheckRet.allOk, ha, ht, hm]
      have hfm : failMsg i (c1 t res (p + 2) tmax rmax) =
          failMsg i (c2 t res (p + 2) tmax rmax) := failMsg_congr i _ _ hu
      by_cases h1 : (c1 t res (p + 2) tmax rmax).allOk = true
      · have h2 : (c2 t res (p + 2) tmax rmax).allOk = true := by rw [← hok]; exact h1
        simp [runTests, hsv, h1, h2, ← hcons, ih]
      · have h2 : ¬(c2 t res (p + 2) tmax rmax).allOk = true := by rw [← hok]; exact h1
        simp [runTests, hsv, h1, h2, hfm]

/-- C4 counterexample: the claim reads the source's oracle call as
`check(test_case, result, time_elapsed, memory_delta, time_limit,
memory_limit)`.  Under that contract, a run whose single invocation takes
10 time units against a limit of 1 must fail on time — and the driver
rendered from the spec's words (`specEvalResult`, paired with the
repository's own checker logic under the spec's argument convention)
does return false.  The actual `internal_evaluation` passes the probe
handle instead: `check_solution` brackets only its own verdict
computation (elapsed 0 on this tape), and the run returns true. -/
theorem driver_oracle_probe_counterexample :
    internal_evaluation tapeSlow true [(1, [0])] solveCha1
        (Cha1.check_solution tapeSlow) 1 1000 none = true ∧
      specEvalResult tapeSlow true [(1, [0])] solveCha1 cha1SpecCheck
        1 1000 none = false := by
  constructor
  · norm_num [internal_evaluation, internalEvalTrace, runTests, tapeSlow, solveCha1,
      Cha1.check_solution, Cha1.accurate, Cha1.isPalindrome, CheckRet.allOk]
  · norm_num [specEvalResult, specRunTests, tapeSlow, solveCha1, cha1SpecCheck,
      Cha1.accurate, Cha1.isPalindrome, CheckRet.allOk]

/-- C4 (amended): on every solution invocation the Driver calls the
Oracle as `check(test_case, result, proc, time_limit, memory_limit)`: it
supplies the probe handle (from which the Oracle takes its own readings)
together with the two configured limits — not the measured elapsed time
and memory delta — and it reads back only the verdict fields (tuple
elements beyond the fourth are ignored). -/
theorem driver_oracle_interface :
    (∀ (α β : Type) (tape : ℕ → ℚ × ℚ) (fe : Bool) (tests : List α)
        (solve : α → Except String β) (check : Check α β) (tmax rmax : ℚ)
        (so : Option (α → ℕ)) (x : α × β × ℕ × ℚ × ℚ),
      x ∈ (internalEvalTrace tape fe tests solve check tmax rmax so).oracleArgs →
      x.2.2.2.1 = tmax ∧ x.2.2.2.2 = rmax) ∧
    (∀ (α β : Type) (c1 c2 : Check α β),
      (∀ t r pr a b, (c1 t r pr a b).used = (c2 t r pr a b).used) →
      ∀ (tape : ℕ → ℚ × ℚ) (fe : Bool) (tests : List α)
        (solve : α → Except String β) (tmax rmax : ℚ) (so : Option (α → ℕ)),
        internalEvalTrace tape fe tests solve c1 tmax rmax so =
          internalEvalTrace tape fe tests solve c2 tmax rmax so) := by
  constructor
  · intro α β tape fe tests solve check tmax rmax so x hx
    rcases internalEvalTrace_oracleArgs tape fe tests solve check tmax rmax so with h | h
    · rw [h] at hx
      exact absurd hx (List.not_mem_nil x)
    · rw [h] at hx
      exact runTests_oracleArgs_limits tape solve check tmax rmax so tests 1 0 x hx
  · intro α β c1 c2 h tape fe tests solve tmax rmax so
    unfold internalEvalTrace
    rw [runTests_check_ext tape solve c1 c2 tmax rmax so h tests 1 0]

/-- C4 witness: the amended statement applied concretely: the limit pair
`(1, 1)` is what the single oracle call of a one-test run receives, and
two checkers differing only in tuple elements past the fourth produce
identical traces. -/
theorem driver_oracle_interface_witness :
    (((7, 7, 2, (1 : ℚ), (1 : ℚ)) :
        ℕ × ℕ × ℕ × ℚ × ℚ) ∈ (internalEvalTrace tapeZeroDelta true [7]
          (fun t => Except.ok t) okCheckW 1 1 none).oracleArgs ∧
      (∀ t r pr a b, (okCheckW t r pr a b).used = (extraCheckW t r pr a b).used)) ∧
      (((7, 7, 2, (1 : ℚ), (1 : ℚ)) : ℕ × ℕ × ℕ × ℚ × ℚ).2.2.2.1 = 1 ∧
        ((7, 7, 2, (1 : ℚ), (1 : ℚ)) : ℕ × ℕ × ℕ × ℚ × ℚ).2.2.2.2 = 1) ∧
      internalEvalTrace tapeZeroDelta true [7] (fun t => Except.ok t) okCheckW
          1 1 none =
        internalEvalTrace tapeZeroDelta true [7] (fun t => Except.ok t) extraCheckW
          1 1 none :=
  ⟨⟨by decide, fun t r pr a b => rfl⟩,
    driver_oracle_interface.1 ℕ ℕ tapeZeroDelta true [7] (fun t => Except.ok t)
      okCheckW 1 1 none (7, 7, 2, 1, 1) (by decide),
    driver_oracle_interface.2 ℕ ℕ okCheckW extraCheckW (fun t r pr a b => rfl)
      tapeZeroDelta true [7] (fun t => Except.ok t) 1 1 none⟩

end Harness
